import Mathlib

/-!
Verification of the `event-sync` calendar synchronisation tool.

The development shallowly embeds the two core components of the program:

* `src/page_iterator.rs` — the paginated-fetch-to-lazy-item-stream adapter
  (`stream_pages`, `stream_items`), modelled as fuel-indexed list producers
  driven by an abstract fetch function
  `fetch : Option String → Except E (Page × Option String)`;

* `src/main.rs`, `Sync::run` — the sync reconciliation algorithm, modelled as
  a pure function from the destination listing, the source listing and the
  configuration (colour override, dry-run flag) to the list of per-event
  decisions, the list of issued create calls, and an optional abort error.

Events and the google-calendar extended-properties maps are modelled with
association lists standing in for Rust's `HashMap<String, String>`.
-/

namespace EventSync

/-! ## Association maps

Rust's `HashMap<String, α>` is modelled by an association list together
with `get` (lookup) and `insert` (replace-or-append) operations.  The
program only ever observes a map through `get`, so the list order carries
no meaning beyond the replace-on-insert behaviour of `HashMap::insert`. -/

/-- Model of `HashMap<String, α>`: an association list of key/value pairs. -/
abbrev AssocMap (α : Type) : Type := List (String × α)


/-- Lookup (`HashMap::get`): the value stored at key `k`, if any. -/
def AssocMap.get {α : Type} (m : AssocMap α) (k : String) : Option α :=
  (List.find? (fun p => p.1 = k) m).map (fun p => p.2)

/-- Insertion (`HashMap::insert`): replace the value at key `k` if present, else append. -/
def AssocMap.insert {α : Type} (m : AssocMap α) (k : String) (v : α) : AssocMap α :=
  if List.any m (fun p => p.1 = k) then
    List.map (fun p => if p.1 = k then (k, v) else p) m
  else
    m ++ [(k, v)]

/-- Keys of the map, in entry order, with multiplicity. -/
def AssocMap.keys {α : Type} (m : AssocMap α) : List String :=
  List.map (fun p => p.1) m

/-- Number of entries carrying key `k`. -/
def AssocMap.countKey {α : Type} (m : AssocMap α) (k : String) : Nat :=
  List.length (List.filter (fun p => p.1 = k) m)

/-! ## The paginated stream adapter (`src/page_iterator.rs`)

`stream_pages` unfolds an abstract fetch function through the two-state
machine `Going(cursor) / Done` of the source.  The Rust stream is lazy and
potentially unbounded, so the model is indexed by a fuel bound on the
number of unfold steps; every theorem below holds for all sufficiently
large fuel, which expresses that the stream genuinely terminates there.
An `Except.error` element is terminal, exactly as `stream::try_unfold`
ends the stream after yielding an error. -/

/-- The unfold state of `stream_pages` (`enum State` in the source). -/
inductive State where
  | going (cursor : Option String)
  | done
deriving DecidableEq

/-- One-to-one model of the `stream::try_unfold` loop in `stream_pages`,
started from an arbitrary state: the list of `Result<Page, E>` elements the
stream yields within `fuel` unfold steps. -/
def stream_pages_from {E Page : Type} (fetch : Option String → Except E (Page × Option String)) :
    Nat → State → List (Except E Page)
  | 0, _ => []
  | _ + 1, State.done => []
  | fuel + 1, State.going cursor =>
    match fetch cursor with
    | Except.error e => [Except.error e]
    | Except.ok (page, some token) =>
        Except.ok page :: stream_pages_from fetch fuel (State.going (some token))
    | Except.ok (page, none) =>
        Except.ok page :: stream_pages_from fetch fuel State.done

/-- The page stream of `stream_pages`, started from `Going(None)` as in the
source. -/
def stream_pages {E Page : Type} (fetch : Option String → Except E (Page × Option String))
    (fuel : Nat) : List (Except E Page) :=
  stream_pages_from fetch fuel (State.going none)

/-- Number of `fetch_page` calls the stream makes within `fuel` unfold
steps, from an arbitrary state. -/
def fetch_calls_from {E Page : Type} (fetch : Option String → Except E (Page × Option String)) :
    Nat → State → Nat
  | 0, _ => 0
  | _ + 1, State.done => 0
  | fuel + 1, State.going cursor =>
    match fetch cursor with
    | Except.error _ => 1
    | Except.ok (_, some token) => 1 + fetch_calls_from fetch fuel (State.going (some token))
    | Except.ok (_, none) => 1 + fetch_calls_from fetch fuel State.done

/-- Number of `fetch_page` calls made when draining the stream. -/
def fetch_calls {E Page : Type} (fetch : Option String → Except E (Page × Option String))
    (fuel : Nat) : Nat :=
  fetch_calls_from fetch fuel (State.going none)

/-- The `map_ok (to_items) |> try_flatten` step of `stream_items`: each ok
page is replaced by its items, an error is yielded as is. -/
def flatten_items {E Page Item : Type} (to_items : Page → List Item)
    (pages : List (Except E Page)) : List (Except E Item) :=
  List.flatten (List.map (fun r =>
    match r with
    | Except.error e => [Except.error e]
    | Except.ok page => List.map Except.ok (to_items page)) pages)

/-- Model of the item stream of `stream_items`, from an arbitrary state. -/
def stream_items_from {E Page Item : Type}
    (fetch : Option String → Except E (Page × Option String)) (to_items : Page → List Item)
    (fuel : Nat) (st : State) : List (Except E Item) :=
  flatten_items to_items (stream_pages_from fetch fuel st)

/-- The item stream of `stream_items`, obtained by flattening the page stream
through the `to_items` projection. -/
def stream_items {E Page Item : Type}
    (fetch : Option String → Except E (Page × Option String)) (to_items : Page → List Item)
    (fuel : Nat) : List (Except E Item) :=
  flatten_items to_items (stream_pages fetch fuel)

/-- Relation `FetchYields fetch cursor ps`: starting from `cursor`, the fetch
function returns the pages `ps` one after the other, each handing the
cursor for the next, and the last page carries no next cursor. -/
inductive FetchYields {E Page : Type}
    (fetch : Option String → Except E (Page × Option String)) :
    Option String → List Page → Prop where
  | last {cursor : Option String} {p : Page} :
      fetch cursor = Except.ok (p, none) → FetchYields fetch cursor [p]
  | step {cursor : Option String} {t : String} {p : Page} {ps : List Page} :
      fetch cursor = Except.ok (p, some t) → FetchYields fetch (some t) ps →
      FetchYields fetch cursor (p :: ps)

/-- Relation `FetchFails fetch cursor ps e`: starting from `cursor`, the fetch
function returns the pages `ps` (each with a next cursor) and then fails
with error `e` on the following call. -/
inductive FetchFails {E Page : Type}
    (fetch : Option String → Except E (Page × Option String)) :
    Option String → List Page → E → Prop where
  | here {cursor : Option String} {e : E} :
      fetch cursor = Except.error e → FetchFails fetch cursor [] e
  | step {cursor : Option String} {t : String} {p : Page} {ps : List Page} {e : E} :
      fetch cursor = Except.ok (p, some t) → FetchFails fetch (some t) ps e →
      FetchFails fetch cursor (p :: ps) e

/-! ## Demand-driven consumption (`List::run`: `iter.take(num)`)

`take_items` models a consumer pulling at most `wanted` items out of
`stream_items`, as `StreamExt::take` does: a page is fetched only when the
current items are exhausted and another item is still demanded.  It
returns the items obtained together with the number of fetch calls made.
An erroring fetch ends consumption after that one call. -/

/-- Pull at most `wanted` items from the item stream, counting fetch
calls.  `fuel` bounds the number of pages, as in `stream_pages_from`. -/
def take_items {E Page Item : Type}
    (fetch : Option String → Except E (Page × Option String)) (to_items : Page → List Item) :
    Nat → Nat → Option String → List Item × Nat
  | _, 0, _ => ([], 0)
  | 0, _ + 1, _ => ([], 0)
  | wanted + 1, fuel + 1, cursor =>
    match fetch cursor with
    | Except.error _ => ([], 1)
    | Except.ok (page, next) =>
      let items := to_items page
      if wanted + 1 ≤ List.length items then (List.take (wanted + 1) items, 1)
      else
        match next with
        | none => (items, 1)
        | some token =>
          let r := take_items fetch to_items (wanted + 1 - List.length items) fuel (some token)
          (items ++ r.1, 1 + r.2)

/-! ## The calendar data model (`google_calendar3::api`, as used by `main.rs`)

Only the `Event` fields the program reads or writes are modelled; every
field is optional exactly as in the service's data model, and a
client-constructed event (`Default::default()`) has every field `none`. -/

/-- Timestamps (`EventDateTime`): a start or end timestamp.  The program copies these
values verbatim, so the payload is modelled as opaque strings. -/
structure EventDateTime where
  date : Option String
  date_time : Option String
  time_zone : Option String
deriving DecidableEq, Inhabited

/-- Extended properties (`EventExtendedProperties`): the private and shared string maps. -/
structure EventExtendedProperties where
  «private» : Option (AssocMap String)
  shared : Option (AssocMap String)
deriving DecidableEq, Inhabited

/-- Events (`Event`), restricted to the fields `main.rs` touches. -/
structure Event where
  id : Option String
  summary : Option String
  location : Option String
  start : Option EventDateTime
  «end» : Option EventDateTime
  extended_properties : Option EventExtendedProperties
  color_id : Option String
  i_cal_uid : Option String
deriving DecidableEq, Inhabited

/-- The reserved sync-tag key (`const SRC_ID_KEY` in `main.rs`). -/
def SRC_ID_KEY : String := "event-sync-src-id"

/-! ## The sync reconciler (`main.rs`, `Sync::run`)

`Sync::run` is modelled as a pure function of the fully drained
destination listing, the source listing and the configuration.  Its
observable behaviour is the ordered list of per-event decisions (the
`log::info!` lines), the list of events passed to `events().insert(..)`,
and the optional abort error. -/

/-- The sync-tag extraction performed on each destination event while
building the index: `event.extended_properties.shared[SRC_ID_KEY]`. -/
def get_src_id (event : Event) : Option String :=
  (event.extended_properties.bind (fun x => x.shared)).bind
    (fun m => AssocMap.get m SRC_ID_KEY)

/-- The destination index: `try_filter_map` on the sync tag followed by
`try_collect::<HashMap<String, Event>>()`.  Untagged events are dropped;
duplicate tags keep the later event, as `HashMap` insertion does. -/
def dst_events_by_src_id (dst_events : List Event) : AssocMap Event :=
  List.foldl (fun idx event =>
    match get_src_id event with
    | none => idx
    | some id => AssocMap.insert idx id event) [] dst_events

/-- Construction of the destination event for a source event absent from
the index (the `None =>` arm of `Sync::run`'s match). -/
def make_dst_event (colour_id : Option String) (id : String) (src_event : Event) : Event :=
  let properties := Option.getD src_event.extended_properties default
  let shared := AssocMap.insert (Option.getD properties.shared []) SRC_ID_KEY id
  { id := none
    summary := src_event.summary
    location := src_event.location
    start := src_event.start
    «end» := src_event.«end»
    extended_properties := some { properties with shared := some shared }
    color_id := colour_id
    i_cal_uid := none }

/-- The abort error of `Sync::run` (`eyre!("Event missing id")`). -/
inductive SyncError where
  | missingSourceId
deriving DecidableEq

/-- One reported per-event decision: the "Ignoring …" or "Inserting event
for …" log line, with the constructed event in the latter case. -/
inductive Decision where
  | skip (id : String)
  | create (event : Event)
deriving DecidableEq

/-- Observable outcome of a sync run: decisions in source order, events
actually passed to the create call, and the abort error if any. -/
structure SyncResult where
  decisions : List Decision
  creates : List Event
  err : Option SyncError
deriving DecidableEq

/-- The `try_for_each` loop over the source stream in `Sync::run`. -/
def sync_events (idx : AssocMap Event) (colour_id : Option String) (dry_run : Bool) :
    List Event → SyncResult
  | [] => ⟨[], [], none⟩
  | src_event :: rest =>
    match src_event.id with
    | none => ⟨[], [], some SyncError.missingSourceId⟩
    | some id =>
      match AssocMap.get idx id with
      | some _ =>
        let r := sync_events idx colour_id dry_run rest
        ⟨Decision.skip id :: r.decisions, r.creates, r.err⟩
      | none =>
        let dst_event := make_dst_event colour_id id src_event
        let r := sync_events idx colour_id dry_run rest
        ⟨Decision.create dst_event :: r.decisions,
         (if dry_run then [] else [dst_event]) ++ r.creates, r.err⟩

/-- The whole of `Sync::run`: build the destination index, then reconcile the source
listing against it. -/
def sync_run (colour_id : Option String) (dry_run : Bool)
    (dst_events src_events : List Event) : SyncResult :=
  sync_events (dst_events_by_src_id dst_events) colour_id dry_run src_events

/-- The shared extended-properties map of an event, empty when absent. -/
def shared_props (event : Event) : AssocMap String :=
  Option.getD ((Option.getD event.extended_properties default).shared) []

/-- The service response shape consumed by the listers: an optional item
list and an optional next-page token (`response.items`,
`response.next_page_token`). -/
structure ListResponse (α : Type) where
  items : Option (List α)
  next_page_token : Option String
deriving DecidableEq

/-- The fetch closure of `list_events` (and of `ListCalendars::run`): call
the service, then hand `(response.items.unwrap_or(vec![]),
response.next_page_token)` to the stream adapter. -/
def lister_fetch {E α : Type} (doit : Option String → Except E (ListResponse α)) :
    Option String → Except E (List α × Option String) :=
  fun cursor =>
    match doit cursor with
    | Except.error e => Except.error e
    | Except.ok r => Except.ok (Option.getD r.items [], r.next_page_token)

/-! ## Concrete fixtures

Small concrete fetch functions and events used to instantiate the
theorems below on closed inputs. -/

/-- Test fetch returning two pages; the second carries no next cursor. -/
def two_page_fetch : Option String → Except String (List Nat × Option String) :=
  fun cursor =>
    match cursor with
    | none => Except.ok ([1, 2], some "p2")
    | some "p2" => Except.ok ([3], none)
    | some _ => Except.error "unknown cursor"

/-- Test fetch returning one page and then failing. -/
def failing_fetch : Option String → Except String (List Nat × Option String) :=
  fun cursor =>
    match cursor with
    | none => Except.ok ([1, 2], some "p2")
    | some _ => Except.error "boom"

/-- Test fetch returning an endless run of two-item pages. -/
def paged_fetch : Option String → Except String (List Nat × Option String) :=
  fun _ => Except.ok ([1, 2], some "next")

/-- Test service responses: first page has absent items and a next token,
second page has one item and no next token. -/
def absent_items_doit : Option String → Except String (ListResponse Nat) :=
  fun cursor =>
    match cursor with
    | none => Except.ok ⟨none, some "p2"⟩
    | some _ => Except.ok ⟨some [7], none⟩

/-- Test service response with absent items and no next token. -/
def final_empty_doit : Option String → Except String (ListResponse Nat) :=
  fun _ => Except.ok ⟨none, none⟩

/-- Test source event with id `1`. -/
def src_event_1 : Event :=
  { id := some "1", summary := some "A", location := none, start := none, «end» := none,
    extended_properties := none, color_id := none, i_cal_uid := none }

/-- Test source event with id `2` and every copied field populated. -/
def src_event_2 : Event :=
  { id := some "2", summary := some "B", location := some "somewhere",
    start := some ⟨none, some "2026-01-01T10:00:00Z", none⟩,
    «end» := some ⟨none, some "2026-01-01T11:00:00Z", none⟩,
    extended_properties := some ⟨none, some [("note", "v")]⟩,
    color_id := none, i_cal_uid := none }

/-- Test source event with no id. -/
def no_id_event : Event :=
  { id := none, summary := some "anonymous", location := none, start := none, «end» := none,
    extended_properties := none, color_id := none, i_cal_uid := none }

/-- Test destination event carrying the sync tag for source id `1`. -/
def tagged_dst_event : Event :=
  { id := some "dst-1", summary := some "other", location := none, start := none,
    «end» := none, extended_properties := some ⟨none, some [(SRC_ID_KEY, "1")]⟩,
    color_id := none, i_cal_uid := none }

/-- Test destination event with no sync tag. -/
def untagged_dst_event : Event :=
  { id := some "dst-2", summary := some "untagged", location := none, start := none,
    «end» := none, extended_properties := none, color_id := none, i_cal_uid := none }

theorem AssocMap.get_cons {α : Type} (p : String × α) (m : AssocMap α) (k : String) :
    get (p :: m) k = if p.1 = k then some p.2 else get m k := by
  by_cases h : p.1 = k <;> simp [get, List.find?, h]

theorem AssocMap.insert_cons_of_ne {α : Type} (p : String × α) (m : AssocMap α) (k : String) (v : α)
    (h : ¬ p.1 = k) : insert (p :: m) k v = p :: insert m k v := by
  by_cases hm : List.any m (fun p => (p.1 = k : Bool)) = true
  · simp [insert, h, hm]
  · simp [insert, h, hm]

theorem AssocMap.get_map_replace_ne {α : Type} (m : AssocMap α) (k k' : String) (v : α) (h : ¬ k' = k) :
    get (List.map (fun p => if p.1 = k then (k, v) else p) m) k' = get m k' := by
  induction m with
  | nil => rfl
  | cons p m ih =>
    by_cases hp : p.1 = k
    · have hk : ¬ k = k' := fun hkk => h hkk.symm
      have hpk' : ¬ p.1 = k' := fun hh => h (hh ▸ hp ▸ rfl : (k' : String) = k)
      simp only [List.map_cons, if_pos hp]
      rw [get_cons, get_cons]
      simp only [hk, if_false, hpk', if_false]
      exact ih
    · simp only [List.map_cons, if_neg hp]
      rw [get_cons, get_cons, ih]

/-- Reading after insertion: the inserted key reads back the new value, every
other key is unaffected. -/
theorem AssocMap.get_insert {α : Type} (m : AssocMap α) (k k' : String) (v : α) :
    get (insert m k v) k' = if k = k' then some v else get m k' := by
  induction m with
  | nil =>
    simp only [insert, List.any_nil, Bool.false_eq_true, if_false, List.nil_append]
    rw [get_cons]
  | cons p m ih =>
    by_cases hp : p.1 = k
    · have hins : insert (p :: m) k v
          = (k, v) :: List.map (fun q => if q.1 = k then (k, v) else q) m := by
        simp [insert, hp]
      rw [hins, get_cons]
      by_cases h : k = k'
      · simp [h]
      · simp only [h, if_false]
        rw [get_map_replace_ne m k k' v (fun hh => h hh.symm), get_cons]
        have hpk' : ¬ p.1 = k' := fun hh => h ((hp ▸ hh : k = k'))
        simp [hpk']
    · rw [insert_cons_of_ne p m k v hp, get_cons, get_cons, ih]
      by_cases hpk' : p.1 = k'
      · have hk : ¬ k = k' := fun hh => hp (hh ▸ hpk')
        simp [hpk', hk]
      · simp [hpk']

theorem AssocMap.get_insert_self {α : Type} (m : AssocMap α) (k : String) (v : α) :
    get (insert m k v) k = some v := by
  rw [get_insert]; simp

theorem AssocMap.countKey_eq_zero_of_not_mem {α : Type} (m : AssocMap α) (k : String)
    (h : List.any m (fun p => (p.1 = k : Bool)) = false) : countKey m k = 0 := by
  induction m with
  | nil => rfl
  | cons p m ih =>
    simp only [List.any_cons, Bool.or_eq_false_iff] at h
    have hp : ¬ p.1 = k := by simpa using h.1
    simp only [countKey, List.filter_cons, hp, decide_eq_false, Bool.false_eq_true, if_false]
    exact ih h.2

theorem AssocMap.countKey_map_replace {α : Type} (m : AssocMap α) (k : String) (v : α) :
    countKey (List.map (fun p => if p.1 = k then (k, v) else p) m) k = countKey m k := by
  induction m with
  | nil => rfl
  | cons p m ih =>
    by_cases hp : p.1 = k
    · simp only [List.map_cons, if_pos hp]
      have h1 : countKey ((k, v) :: List.map (fun q => if q.1 = k then (k, v) else q) m) k
          = countKey (List.map (fun q => if q.1 = k then (k, v) else q) m) k + 1 := by
        simp [countKey, List.filter_cons]
      have h2 : countKey (p :: m) k = countKey m k + 1 := by
        simp [countKey, List.filter_cons, hp]
      rw [h1, h2, ih]
    · simp only [List.map_cons, if_neg hp, countKey, List.filter_cons]
      simp only [decide_eq_false hp, Bool.false_eq_true, if_false]
      exact ih

theorem AssocMap.countKey_le_one_of_nodup {α : Type} (m : AssocMap α) (k : String)
    (h : List.Nodup (keys m)) : countKey m k ≤ 1 := by
  induction m with
  | nil => exact Nat.zero_le 1
  | cons p m ih =>
    simp only [keys, List.map_cons, List.nodup_cons] at h
    by_cases hp : p.1 = k
    · have hzero : countKey m k = 0 := by
        apply countKey_eq_zero_of_not_mem
        rw [Bool.eq_false_iff]
        intro hany
        simp only [List.any_eq_true, decide_eq_true_eq] at hany
        obtain ⟨q, hq, hqk⟩ := hany
        exact h.1 (hp ▸ hqk ▸ List.mem_map_of_mem (fun r => r.1) hq)
      have hcons : countKey (p :: m) k = countKey m k + 1 := by
        simp [countKey, List.filter_cons, hp]
      omega
    · have hcons : countKey (p :: m) k = countKey m k := by
        simp [countKey, List.filter_cons, decide_eq_false hp]
      rw [hcons]
      exact ih h.2

theorem AssocMap.one_le_countKey_of_mem {α : Type} (m : AssocMap α) (k : String)
    (h : List.any m (fun p => (p.1 = k : Bool)) = true) : 1 ≤ countKey m k := by
  induction m with
  | nil => simp at h
  | cons p m ih =>
    by_cases hp : p.1 = k
    · simp [countKey, List.filter_cons, hp]
    · simp only [List.any_cons, decide_eq_false hp, Bool.false_or] at h
      have hcons : countKey (p :: m) k = countKey m k := by
        simp [countKey, List.filter_cons, decide_eq_false hp]
      rw [hcons]
      exact ih h

/-- Inserting into a map whose keys are distinct leaves exactly one entry
for the inserted key. -/
theorem AssocMap.countKey_insert_self {α : Type} (m : AssocMap α) (k : String) (v : α)
    (h : List.Nodup (keys m)) : countKey (insert m k v) k = 1 := by
  by_cases hm : List.any m (fun p => (p.1 = k : Bool)) = true
  · have h1 : countKey (insert m k v) k = countKey m k := by
      simp only [insert, hm, if_true]
      exact countKey_map_replace m k v
    have h2 := countKey_le_one_of_nodup m k h
    have h3 := one_le_countKey_of_mem m k hm
    omega
  · have hm' : List.any m (fun p => (p.1 = k : Bool)) = false := Bool.eq_false_iff.mpr hm
    simp only [insert, hm', Bool.false_eq_true, if_false]
    have happ : countKey (m ++ [(k, v)]) k = countKey m k + 1 := by
      simp [countKey, List.filter_append]
    rw [happ, countKey_eq_zero_of_not_mem m k hm']


theorem stream_pages_from_done {E Page : Type}
    (fetch : Option String → Except E (Page × Option String)) (fuel : Nat) :
    stream_pages_from fetch fuel State.done = [] := by
  cases fuel <;> rfl

theorem fetch_calls_from_done {E Page : Type}
    (fetch : Option String → Except E (Page × Option String)) (fuel : Nat) :
    fetch_calls_from fetch fuel State.done = 0 := by
  cases fuel <;> rfl

theorem stream_pages_from_yields {E Page : Type}
    {fetch : Option String → Except E (Page × Option String)}
    {cursor : Option String} {ps : List Page}
    (h : FetchYields fetch cursor ps) :
    ∀ fuel, List.length ps ≤ fuel →
      stream_pages_from fetch fuel (State.going cursor) = List.map Except.ok ps := by
  induction h with
  | @last cursor p hfetch =>
    intro fuel hfuel
    match fuel, hfuel with
    | fuel + 1, _ =>
      simp [stream_pages_from, hfetch, stream_pages_from_done]
  | @step cursor t p ps hfetch _ ih =>
    intro fuel hfuel
    match fuel, hfuel with
    | fuel + 1, hfuel =>
      have : List.length ps ≤ fuel := by
        simpa [Nat.succ_le_succ_iff] using hfuel
      simp [stream_pages_from, hfetch, ih fuel this]

theorem stream_pages_from_fails {E Page : Type}
    {fetch : Option String → Except E (Page × Option String)}
    {cursor : Option String} {ps : List Page} {e : E}
    (h : FetchFails fetch cursor ps e) :
    ∀ fuel, List.length ps + 1 ≤ fuel →
      stream_pages_from fetch fuel (State.going cursor)
        = List.map Except.ok ps ++ [Except.error e] := by
  induction h with
  | @here cursor e hfetch =>
    intro fuel hfuel
    match fuel, hfuel with
    | fuel + 1, _ =>
      simp [stream_pages_from, hfetch]
  | @step cursor t p ps e hfetch _ ih =>
    intro fuel hfuel
    match fuel, hfuel with
    | fuel + 1, hfuel =>
      have : List.length ps + 1 ≤ fuel := by
        simpa [Nat.succ_le_succ_iff] using hfuel
      simp [stream_pages_from, hfetch, ih fuel this]

theorem fetch_calls_from_fails {E Page : Type}
    {fetch : Option String → Except E (Page × Option String)}
    {cursor : Option String} {ps : List Page} {e : E}
    (h : FetchFails fetch cursor ps e) :
    ∀ fuel, List.length ps + 1 ≤ fuel →
      fetch_calls_from fetch fuel (State.going cursor) = List.length ps + 1 := by
  induction h with
  | @here cursor e hfetch =>
    intro fuel hfuel
    match fuel, hfuel with
    | fuel + 1, _ =>
      simp [fetch_calls_from, hfetch]
  | @step cursor t p ps e hfetch _ ih =>
    intro fuel hfuel
    match fuel, hfuel with
    | fuel + 1, hfuel =>
      have : List.length ps + 1 ≤ fuel := by
        simpa [Nat.succ_le_succ_iff] using hfuel
      simp [fetch_calls_from, hfetch, ih fuel this]
      omega

theorem flatten_items_map_ok {E Page Item : Type} (to_items : Page → List Item)
    (ps : List Page) :
    @flatten_items E Page Item to_items (List.map Except.ok ps)
      = List.map Except.ok (List.flatten (List.map to_items ps)) := by
  induction ps with
  | nil => rfl
  | cons p ps ih =>
    simp [flatten_items, List.flatten, List.map_append] at *
    exact ih

theorem take_items_zero {E Page Item : Type}
    (fetch : Option String → Except E (Page × Option String)) (to_items : Page → List Item)
    (fuel : Nat) (cursor : Option String) :
    take_items fetch to_items 0 fuel cursor = ([], 0) := by
  cases fuel <;> rfl

/-- Fetch-count bound: if every page carries exactly `m ≥ 1` items, pulling
`n` items makes at most `⌈n / m⌉` fetch calls. -/
theorem take_items_calls_le {E Page Item : Type}
    (fetch : Option String → Except E (Page × Option String)) (to_items : Page → List Item)
    (m : Nat) (hm : 0 < m)
    (hpages : ∀ cursor page next, fetch cursor = Except.ok (page, next) →
      List.length (to_items page) = m) :
    ∀ fuel n cursor, (take_items fetch to_items n fuel cursor).2 ≤ (n + m - 1) / m := by
  intro fuel
  induction fuel with
  | zero =>
    intro n cursor
    cases n <;> simp [take_items]
  | succ fuel ih =>
    intro n cursor
    match n with
    | 0 => simp [take_items]
    | n + 1 =>
      have hceil : 1 ≤ (n + 1 + m - 1) / m := by
        have h1 : m ≤ n + 1 + m - 1 := by omega
        exact Nat.one_le_div_iff hm |>.mpr h1
      cases hfetch : fetch cursor with
      | error e => simpa [take_items, hfetch] using hceil
      | ok pr =>
        obtain ⟨page, next⟩ := pr
        have hlen : List.length (to_items page) = m := hpages cursor page next hfetch
        by_cases hw : n + 1 ≤ List.length (to_items page)
        · simpa [take_items, hfetch, hw] using hceil
        · cases next with
          | none => simpa [take_items, hfetch, hw] using hceil
          | some token =>
            have hrec := ih (n + 1 - List.length (to_items page)) (some token)
            have hsplit : (n + 1 - m + m - 1) / m + 1 = (n + 1 + m - 1) / m := by
              have hmn : m < n + 1 := by omega
              have h1 : n + 1 - m + m - 1 = n - m + m := by omega
              have h2 : n + 1 + m - 1 = n - m + m + m := by omega
              rw [h1, h2, Nat.add_div_right _ hm, Nat.add_div_right _ hm,
                Nat.add_div_right _ hm]
            simp only [take_items, hfetch, hw, if_false]
            simp only [hlen] at *
            calc 1 + (take_items fetch to_items (n + 1 - m) fuel (some token)).2
                ≤ 1 + (n + 1 - m + m - 1) / m := by omega
              _ = (n + 1 + m - 1) / m := by omega

theorem shared_props_make_dst_event (colour_id : Option String) (id : String)
    (src_event : Event) :
    shared_props (make_dst_event colour_id id src_event)
      = AssocMap.insert (shared_props src_event) SRC_ID_KEY id := rfl

/-- Every event the reconciler constructs reads back its own source id at
the sync-tag key. -/
theorem get_src_id_make_dst_event (colour_id : Option String) (id : String)
    (src_event : Event) :
    get_src_id (make_dst_event colour_id id src_event) = some id := by
  simp [get_src_id, make_dst_event, AssocMap.get_insert_self]

theorem get_foldl_index_ne_none {acc : AssocMap Event} {events : List Event} {i : String} :
    AssocMap.get (List.foldl (fun idx event =>
        match get_src_id event with
        | none => idx
        | some id => AssocMap.insert idx id event) acc events) i ≠ none
      ↔ AssocMap.get acc i ≠ none ∨ ∃ e ∈ events, get_src_id e = some i := by
  induction events generalizing acc with
  | nil => simp
  | cons e events ih =>
    rw [List.foldl_cons]
    cases hsrc : get_src_id e with
    | none =>
      simp only [hsrc]
      rw [ih]
      constructor
      · rintro (h | h)
        · exact Or.inl h
        · exact Or.inr ⟨h.choose, List.mem_cons_of_mem e h.choose_spec.1, h.choose_spec.2⟩
      · rintro (h | ⟨x, hx, hxi⟩)
        · exact Or.inl h
        · rcases List.mem_cons.mp hx with rfl | hx'
          · exact absurd (hsrc ▸ hxi) (by simp)
          · exact Or.inr ⟨x, hx', hxi⟩
    | some j =>
      simp only [hsrc]
      rw [ih]
      have hget : AssocMap.get (AssocMap.insert acc j e) i ≠ none
          ↔ (j = i ∨ AssocMap.get acc i ≠ none) := by
        rw [AssocMap.get_insert]
        by_cases hji : j = i <;> simp [hji]
      rw [hget]
      constructor
      · rintro ((rfl | h) | h)
        · exact Or.inr ⟨e, List.mem_cons_self e events, hsrc⟩
        · exact Or.inl h
        · exact Or.inr ⟨h.choose, List.mem_cons_of_mem e h.choose_spec.1, h.choose_spec.2⟩
      · rintro (h | ⟨x, hx, hxi⟩)
        · exact Or.inl (Or.inr h)
        · rcases List.mem_cons.mp hx with rfl | hx'
          · exact Or.inl (Or.inl (by
              have := hsrc.symm.trans hxi
              exact Option.some.inj this))
          · exact Or.inr ⟨x, hx', hxi⟩

/-- The destination index contains a key exactly when some destination
event carries that sync tag. -/
theorem get_index_ne_none {dst_events : List Event} {i : String} :
    AssocMap.get (dst_events_by_src_id dst_events) i ≠ none
      ↔ ∃ e ∈ dst_events, get_src_id e = some i := by
  rw [dst_events_by_src_id, get_foldl_index_ne_none]
  simp [AssocMap.get]

/-- Every event in the create list of a live run is the constructed event
of some source event whose id the index did not contain. -/
theorem mem_creates_sync_events {idx : AssocMap Event} {colour_id : Option String}
    {src_events : List Event} {e : Event}
    (h : e ∈ (sync_events idx colour_id false src_events).creates) :
    ∃ s ∈ src_events, ∃ i, s.id = some i ∧ AssocMap.get idx i = none
      ∧ e = make_dst_event colour_id i s := by
  induction src_events with
  | nil => simp [sync_events] at h
  | cons s rest ih =>
    cases hid : s.id with
    | none => simp [sync_events, hid] at h
    | some i =>
      cases hidx : AssocMap.get idx i with
      | some ex =>
        simp only [sync_events, hid, hidx] at h
        obtain ⟨x, hx, j, hj, hji, hje⟩ := ih h
        exact ⟨x, List.mem_cons_of_mem s hx, j, hj, hji, hje⟩
      | none =>
        simp only [sync_events, hid, hidx, Bool.false_eq_true, if_false,
          List.singleton_append, List.mem_cons] at h
        rcases h with rfl | h
        · exact ⟨s, List.mem_cons_self s rest, i, hid, hidx, rfl⟩
        · obtain ⟨x, hx, j, hj, hji, hje⟩ := ih h
          exact ⟨x, List.mem_cons_of_mem s hx, j, hj, hji, hje⟩

/-- If a second run's index covers both the first run's index and the tags
of everything the first run created, the second run creates nothing. -/
theorem sync_events_rerun_creates_nil (idx1 : AssocMap Event) {idx2 : AssocMap Event}
    {colour_id : Option String} {b : Bool} {src_events : List Event}
    (hmono : ∀ i, AssocMap.get idx1 i ≠ none → AssocMap.get idx2 i ≠ none)
    (hcre : ∀ e ∈ (sync_events idx1 colour_id false src_events).creates,
      ∀ i, get_src_id e = some i → AssocMap.get idx2 i ≠ none) :
    (sync_events idx2 colour_id b src_events).creates = [] := by
  induction src_events with
  | nil => rfl
  | cons s rest ih =>
    cases hid : s.id with
    | none => simp [sync_events, hid]
    | some i =>
      have hidx2 : AssocMap.get idx2 i ≠ none := by
        cases hidx1 : AssocMap.get idx1 i with
        | some ex => exact hmono i (by simp [hidx1])
        | none =>
          apply hcre (make_dst_event colour_id i s)
          · simp [sync_events, hid, hidx1]
          · exact get_src_id_make_dst_event colour_id i s
      obtain ⟨v, hv⟩ := Option.ne_none_iff_exists'.mp hidx2
      have hrest : ∀ e ∈ (sync_events idx1 colour_id false rest).creates,
          ∀ i, get_src_id e = some i → AssocMap.get idx2 i ≠ none := by
        intro e he j hj
        apply hcre e _ j hj
        cases hidx1 : AssocMap.get idx1 i with
        | some ex => simpa [sync_events, hid, hidx1] using he
        | none =>
          simp only [sync_events, hid, hidx1, Bool.false_eq_true, if_false,
            List.singleton_append]
          exact List.mem_cons_of_mem _ he
      simp [sync_events, hid, hv, ih hrest]

/-- A dry run computes the same decisions and the same abort error as a
live run, and issues no create. -/
theorem sync_events_dry_run_eq (idx : AssocMap Event) (colour_id : Option String)
    (src_events : List Event) :
    sync_events idx colour_id true src_events
      = ⟨(sync_events idx colour_id false src_events).decisions, [],
         (sync_events idx colour_id false src_events).err⟩ := by
  induction src_events with
  | nil => rfl
  | cons s rest ih =>
    cases hid : s.id with
    | none => simp [sync_events, hid]
    | some i =>
      cases hidx : AssocMap.get idx i with
      | some ex => simp [sync_events, hid, hidx, ih]
      | none => simp [sync_events, hid, hidx, ih]

theorem sync_events_abort_eq {idx : AssocMap Event} {colour_id : Option String} {b : Bool}
    (pre : List Event) {s : Event} (post : List Event) (h : s.id = none) :
    sync_events idx colour_id b (pre ++ s :: post)
      = sync_events idx colour_id b (pre ++ [s]) := by
  induction pre with
  | nil => simp [sync_events, h]
  | cons p pre ih =>
    cases hid : p.id with
    | none => simp [sync_events, hid]
    | some i =>
      cases hidx : AssocMap.get idx i with
      | some ex => simp [sync_events, hid, hidx, ih]
      | none => simp [sync_events, hid, hidx, ih]

theorem sync_events_abort_err {idx : AssocMap Event} {colour_id : Option String} {b : Bool}
    (pre : List Event) {s : Event} (post : List Event) (h : s.id = none) :
    (sync_events idx colour_id b (pre ++ s :: post)).err = some SyncError.missingSourceId := by
  induction pre with
  | nil => simp [sync_events, h]
  | cons p pre ih =>
    cases hid : p.id with
    | none => simp [sync_events, hid]
    | some i =>
      cases hidx : AssocMap.get idx i with
      | some ex => simpa [sync_events, hid, hidx] using ih
      | none => simpa [sync_events, hid, hidx] using ih

theorem sync_events_abort_creates {idx : AssocMap Event} {colour_id : Option String} {b : Bool}
    (pre : List Event) {s : Event} (post : List Event) (h : s.id = none) :
    (sync_events idx colour_id b (pre ++ s :: post)).creates
      = (sync_events idx colour_id b pre).creates := by
  induction pre with
  | nil => simp [sync_events, h]
  | cons p pre ih =>
    cases hid : p.id with
    | none => simp [sync_events, hid]
    | some i =>
      cases hidx : AssocMap.get idx i with
      | some ex => simpa [sync_events, hid, hidx] using ih
      | none => simpa [sync_events, hid, hidx] using ih

/-- A destination event without the sync tag contributes nothing to the
index (it is dropped, not an error). -/
theorem index_drops_untagged (pre post : List Event) {e : Event}
    (h : get_src_id e = none) :
    dst_events_by_src_id (pre ++ e :: post) = dst_events_by_src_id (pre ++ post) := by
  simp only [dst_events_by_src_id, List.foldl_append, List.foldl_cons, h]

theorem fetch_calls_from_yields {E Page : Type}
    {fetch : Option String → Except E (Page × Option String)}
    {cursor : Option String} {ps : List Page}
    (h : FetchYields fetch cursor ps) :
    ∀ fuel, List.length ps ≤ fuel →
      fetch_calls_from fetch fuel (State.going cursor) = List.length ps := by
  induction h with
  | @last cursor p hfetch =>
    intro fuel hfuel
    match fuel, hfuel with
    | fuel + 1, _ =>
      simp [fetch_calls_from, hfetch, fetch_calls_from_done]
  | @step cursor t p ps hfetch _ ih =>
    intro fuel hfuel
    match fuel, hfuel with
    | fuel + 1, hfuel =>
      have : List.length ps ≤ fuel := by
        simpa [Nat.succ_le_succ_iff] using hfuel
      simp [fetch_calls_from, hfetch, ih fuel this]
      omega

theorem flatten_items_append {E Page Item : Type} (to_items : Page → List Item)
    (l1 l2 : List (Except E Page)) :
    flatten_items to_items (l1 ++ l2)
      = flatten_items to_items l1 ++ flatten_items to_items l2 := by
  simp [flatten_items, List.map_append, List.flatten_append]

/-! ## Claim theorems -/

/-- C1: Sync idempotence: running the reconciler over the destination
state left by a previous live run (the old destination listing plus
everything that run created) performs zero create calls; in particular a
source event whose id is already carried as a sync tag by some
destination event contributes no create call. -/
theorem sync_idempotent :
    (∀ (colour_id : Option String) (dst_events src_events : List Event),
      (sync_run colour_id false
        (dst_events ++ (sync_run colour_id false dst_events src_events).creates)
        src_events).creates = [])
    ∧ (∀ (colour_id : Option String) (dry_run : Bool) (dst_events : List Event)
        (s : Event) (i : String) (rest : List Event),
        s.id = some i → (∃ d ∈ dst_events, get_src_id d = some i) →
        (sync_run colour_id dry_run dst_events (s :: rest)).creates
          = (sync_run colour_id dry_run dst_events rest).creates) := by
  constructor
  · intro colour_id dst_events src_events
    apply sync_events_rerun_creates_nil (dst_events_by_src_id dst_events)
    · intro i h
      rw [get_index_ne_none] at h ⊢
      obtain ⟨e, he, hei⟩ := h
      exact ⟨e, List.mem_append_left _ he, hei⟩
    · intro e he i hi
      rw [get_index_ne_none]
      exact ⟨e, List.mem_append_right _ he, hi⟩
  · intro colour_id dry_run dst_events s i rest hid hex
    have hne : AssocMap.get (dst_events_by_src_id dst_events) i ≠ none :=
      get_index_ne_none.mpr hex
    obtain ⟨v, hv⟩ := Option.ne_none_iff_exists'.mp hne
    simp [sync_run, sync_events, hid, hv]

theorem sync_idempotent_witness :
    src_event_1.id = some "1"
    ∧ (∃ d ∈ [tagged_dst_event], get_src_id d = some "1")
    ∧ (sync_run none false [tagged_dst_event] [src_event_1]).creates
        = (sync_run none false [tagged_dst_event] []).creates :=
  ⟨rfl, ⟨tagged_dst_event, by decide, by decide⟩,
   sync_idempotent.2 none false [tagged_dst_event] src_event_1 "1" [] rfl
     ⟨tagged_dst_event, by decide, by decide⟩⟩

/-- C2: a source event whose id is absent from the destination index leads
to the construction of a destination event that copies summary, location,
start and end from the source, whose shared extended properties are the
source's plus the sync tag mapped to the source id, and whose colour is
the configured override. -/
theorem sync_creates_copy (colour_id : Option String) (dry_run : Bool)
    (dst_events rest : List Event) (s : Event) (i : String)
    (hid : s.id = some i)
    (habs : AssocMap.get (dst_events_by_src_id dst_events) i = none) :
    (sync_run colour_id dry_run dst_events (s :: rest)).decisions.head?
        = some (Decision.create (make_dst_event colour_id i s))
    ∧ (make_dst_event colour_id i s).summary = s.summary
    ∧ (make_dst_event colour_id i s).location = s.location
    ∧ (make_dst_event colour_id i s).start = s.start
    ∧ (make_dst_event colour_id i s).«end» = s.«end»
    ∧ (∀ k, AssocMap.get (shared_props (make_dst_event colour_id i s)) k
        = if k = SRC_ID_KEY then some i else AssocMap.get (shared_props s) k)
    ∧ (make_dst_event colour_id i s).color_id = colour_id := by
  refine ⟨?_, rfl, rfl, rfl, rfl, ?_, rfl⟩
  · simp [sync_run, sync_events, hid, habs]
  · intro k
    rw [shared_props_make_dst_event, AssocMap.get_insert]
    by_cases hk : k = SRC_ID_KEY
    · simp [hk]
    · have hk' : ¬ SRC_ID_KEY = k := fun hh => hk hh.symm
      simp [hk, hk']

theorem sync_creates_copy_witness :
    (sync_run (some "7") false [] [src_event_2]).decisions.head?
        = some (Decision.create (make_dst_event (some "7") "2" src_event_2))
    ∧ (make_dst_event (some "7") "2" src_event_2).summary = src_event_2.summary
    ∧ (make_dst_event (some "7") "2" src_event_2).location = src_event_2.location
    ∧ (make_dst_event (some "7") "2" src_event_2).start = src_event_2.start
    ∧ (make_dst_event (some "7") "2" src_event_2).«end» = src_event_2.«end»
    ∧ (∀ k, AssocMap.get (shared_props (make_dst_event (some "7") "2" src_event_2)) k
        = if k = SRC_ID_KEY then some "2"
          else AssocMap.get (shared_props src_event_2) k)
    ∧ (make_dst_event (some "7") "2" src_event_2).color_id = some "7" :=
  sync_creates_copy (some "7") false [] [] src_event_2 "2" rfl rfl

/-- C5: a source event with no id makes the run fail with the
missing-source-id error and abort at that event: the whole outcome equals
that of the source truncated right after the offending event, and no
create is issued beyond those of the preceding events. -/
theorem sync_missing_id_aborts (colour_id : Option String) (dry_run : Bool)
    (dst_events pre post : List Event) (s : Event) (h : s.id = none) :
    sync_run colour_id dry_run dst_events (pre ++ s :: post)
        = sync_run colour_id dry_run dst_events (pre ++ [s])
    ∧ (sync_run colour_id dry_run dst_events (pre ++ s :: post)).err
        = some SyncError.missingSourceId
    ∧ (sync_run colour_id dry_run dst_events (pre ++ s :: post)).creates
        = (sync_run colour_id dry_run dst_events pre).creates :=
  ⟨sync_events_abort_eq pre post h, sync_events_abort_err pre post h,
   sync_events_abort_creates pre post h⟩

theorem sync_missing_id_aborts_witness :
    sync_run none false [] ([src_event_1] ++ no_id_event :: [src_event_2])
        = sync_run none false [] ([src_event_1] ++ [no_id_event])
    ∧ (sync_run none false [] ([src_event_1] ++ no_id_event :: [src_event_2])).err
        = some SyncError.missingSourceId
    ∧ (sync_run none false [] ([src_event_1] ++ no_id_event :: [src_event_2])).creates
        = (sync_run none false [] [src_event_1]).creates :=
  sync_missing_id_aborts none false [] [src_event_1] [src_event_2] no_id_event rfl

/-- C6: a source event whose id is present in the destination index is
skipped: the run's outcome is the skip decision followed by the outcome on
the remaining events, with no create and no other destination mutation,
whatever the matched destination event contains. -/
theorem sync_skip_existing (colour_id : Option String) (dry_run : Bool)
    (dst_events rest : List Event) (s ex : Event) (i : String)
    (hid : s.id = some i)
    (hex : AssocMap.get (dst_events_by_src_id dst_events) i = some ex) :
    sync_run colour_id dry_run dst_events (s :: rest)
      = ⟨Decision.skip i :: (sync_run colour_id dry_run dst_events rest).decisions,
         (sync_run colour_id dry_run dst_events rest).creates,
         (sync_run colour_id dry_run dst_events rest).err⟩ := by
  simp [sync_run, sync_events, hid, hex]

theorem sync_skip_existing_witness :
    sync_run none false [tagged_dst_event] (src_event_1 :: [src_event_2])
      = ⟨Decision.skip "1"
          :: (sync_run none false [tagged_dst_event] [src_event_2]).decisions,
         (sync_run none false [tagged_dst_event] [src_event_2]).creates,
         (sync_run none false [tagged_dst_event] [src_event_2]).err⟩ :=
  sync_skip_existing none false [tagged_dst_event] [src_event_2] src_event_1
    tagged_dst_event "1" rfl (by decide)

/-- C7: a dry run issues zero create calls while computing the same
per-event decisions (skips and constructed creations) and the same abort
error as the live run over the same state. -/
theorem sync_dry_run_no_creates (colour_id : Option String)
    (dst_events src_events : List Event) :
    (sync_run colour_id true dst_events src_events).creates = []
    ∧ (sync_run colour_id true dst_events src_events).decisions
        = (sync_run colour_id false dst_events src_events).decisions
    ∧ (sync_run colour_id true dst_events src_events).err
        = (sync_run colour_id false dst_events src_events).err := by
  have h := sync_events_dry_run_eq (dst_events_by_src_id dst_events) colour_id src_events
  refine ⟨?_, ?_, ?_⟩ <;> simp [sync_run, h]

/-- C8: every destination event a run creates is the constructed event of
some source event, reads back exactly that source id at the sync-tag key,
and — when the source's shared map is a well-formed map (distinct keys,
as any `HashMap` image is) — carries exactly one entry for that key, even
if the source already contained it; and a destination event without the
tag is dropped from the index rather than being an error. -/
theorem sync_create_tag_invariant :
    (∀ (colour_id : Option String) (dry_run : Bool) (dst_events src_events : List Event)
        (e : Event), e ∈ (sync_run colour_id dry_run dst_events src_events).creates →
      ∃ s ∈ src_events, ∃ i, s.id = some i ∧ e = make_dst_event colour_id i s
        ∧ AssocMap.get (shared_props e) SRC_ID_KEY = some i
        ∧ (List.Nodup (AssocMap.keys (shared_props s)) →
            AssocMap.countKey (shared_props e) SRC_ID_KEY = 1))
    ∧ (∀ (pre post : List Event) (e : Event), get_src_id e = none →
        dst_events_by_src_id (pre ++ e :: post) = dst_events_by_src_id (pre ++ post)) := by
  constructor
  · intro colour_id dry_run dst_events src_events e he
    cases dry_run with
    | true =>
      rw [sync_run, sync_events_dry_run_eq] at he
      simp at he
    | false =>
      obtain ⟨s, hs, i, hi, hgi, hei⟩ := mem_creates_sync_events he
      refine ⟨s, hs, i, hi, hei, ?_, ?_⟩
      · rw [hei, shared_props_make_dst_event, AssocMap.get_insert_self]
      · intro hnodup
        rw [hei, shared_props_make_dst_event]
        exact AssocMap.countKey_insert_self _ _ _ hnodup
  · intro pre post e h
    exact index_drops_untagged pre post h

theorem sync_create_tag_invariant_witness :
    (∃ s ∈ [src_event_2], ∃ i, s.id = some i
      ∧ make_dst_event none "2" src_event_2 = make_dst_event none i s
      ∧ AssocMap.get (shared_props (make_dst_event none "2" src_event_2)) SRC_ID_KEY = some i
      ∧ (List.Nodup (AssocMap.keys (shared_props s)) →
          AssocMap.countKey (shared_props (make_dst_event none "2" src_event_2)) SRC_ID_KEY
            = 1))
    ∧ dst_events_by_src_id ([tagged_dst_event] ++ untagged_dst_event :: [])
        = dst_events_by_src_id ([tagged_dst_event] ++ []) :=
  ⟨sync_create_tag_invariant.1 none false [] [src_event_2]
      (make_dst_event none "2" src_event_2) (by decide),
   sync_create_tag_invariant.2 [tagged_dst_event] [] untagged_dst_event (by decide)⟩

/-- C3: when the fetch function returns a finite chain of pages whose last
page carries no next cursor, the item stream is exactly the concatenation
of the pages' item lists in order, and the stream makes exactly one fetch
per page — it ends after the cursor-less page. -/
theorem stream_items_concat {E Page Item : Type}
    (fetch : Option String → Except E (Page × Option String)) (to_items : Page → List Item)
    (ps : List Page) (fuel : Nat)
    (h : FetchYields fetch none ps) (hfuel : List.length ps ≤ fuel) :
    stream_items fetch to_items fuel
      = List.map Except.ok (List.flatten (List.map to_items ps))
    ∧ fetch_calls fetch fuel = List.length ps := by
  constructor
  · rw [stream_items, stream_pages, stream_pages_from_yields h fuel hfuel,
      flatten_items_map_ok]
  · exact fetch_calls_from_yields h fuel hfuel

theorem stream_items_concat_witness :
    stream_items two_page_fetch (fun items => items) 5
      = List.map Except.ok (List.flatten (List.map (fun items => items) [[1, 2], [3]]))
    ∧ fetch_calls two_page_fetch 5 = List.length [[1, 2], [3]] :=
  stream_items_concat two_page_fetch (fun items => items) [[1, 2], [3]] 5
    (FetchYields.step rfl (FetchYields.last rfl)) (by decide)

/-- C4: when the fetch function fails on the k-th call, the item stream is
exactly the items of the k−1 preceding pages followed by that error once,
and exactly k fetch calls are made — none after the failing one. -/
theorem stream_items_error_once {E Page Item : Type}
    (fetch : Option String → Except E (Page × Option String)) (to_items : Page → List Item)
    (ps : List Page) (e : E) (fuel : Nat)
    (h : FetchFails fetch none ps e) (hfuel : List.length ps + 1 ≤ fuel) :
    stream_items fetch to_items fuel
      = List.map Except.ok (List.flatten (List.map to_items ps)) ++ [Except.error e]
    ∧ fetch_calls fetch fuel = List.length ps + 1 := by
  constructor
  · rw [stream_items, stream_pages, stream_pages_from_fails h fuel hfuel,
      flatten_items_append, flatten_items_map_ok]
    rfl
  · exact fetch_calls_from_fails h fuel hfuel

theorem stream_items_error_once_witness :
    stream_items failing_fetch (fun items => items) 5
      = List.map Except.ok (List.flatten (List.map (fun items => items) [[1, 2]]))
          ++ [Except.error "boom"]
    ∧ fetch_calls failing_fetch 5 = List.length [[1, 2]] + 1 :=
  stream_items_error_once failing_fetch (fun items => items) [[1, 2]] "boom" 5
    (FetchFails.step rfl (FetchFails.here rfl)) (by decide)

/-- C9: pages are fetched on demand: demanding zero items makes zero fetch
calls; a first page already holding the demanded count satisfies the
demand with a single fetch call; and when every page carries exactly `m`
items, taking `n` items makes at most `⌈n / m⌉` fetch calls. -/
theorem take_items_on_demand :
    (∀ (E Page Item : Type) (fetch : Option String → Except E (Page × Option String))
        (to_items : Page → List Item) (fuel : Nat) (cursor : Option String),
      take_items fetch to_items 0 fuel cursor = ([], 0))
    ∧ (∀ (E Page Item : Type) (fetch : Option String → Except E (Page × Option String))
        (to_items : Page → List Item) (page : Page) (next cursor : Option String)
        (n fuel : Nat),
        fetch cursor = Except.ok (page, next) → 0 < n →
        n ≤ List.length (to_items page) →
        take_items fetch to_items n (fuel + 1) cursor = (List.take n (to_items page), 1))
    ∧ (∀ (E Page Item : Type) (fetch : Option String → Except E (Page × Option String))
        (to_items : Page → List Item) (m : Nat), 0 < m →
        (∀ cursor page next, fetch cursor = Except.ok (page, next) →
          List.length (to_items page) = m) →
        ∀ fuel n cursor, (take_items fetch to_items n fuel cursor).2 ≤ (n + m - 1) / m) := by
  refine ⟨?_, ?_, ?_⟩
  · intro E Page Item fetch to_items fuel cursor
    exact take_items_zero fetch to_items fuel cursor
  · intro E Page Item fetch to_items page next cursor n fuel hfetch hn hlen
    obtain ⟨k, rfl⟩ : ∃ k, n = k + 1 := ⟨n - 1, by omega⟩
    simp [take_items, hfetch, hlen]
  · intro E Page Item fetch to_items m hm hpages fuel n cursor
    exact take_items_calls_le fetch to_items m hm hpages fuel n cursor

theorem take_items_on_demand_witness :
    take_items two_page_fetch (fun items => items) 0 5 none = ([], 0)
    ∧ take_items two_page_fetch (fun items => items) 2 1 none
        = (List.take 2 ((fun items => items) [1, 2]), 1)
    ∧ (take_items paged_fetch (fun items => items) 3 9 none).2 ≤ (3 + 2 - 1) / 2 :=
  ⟨take_items_on_demand.1 String (List Nat) Nat two_page_fetch (fun items => items) 5 none,
   take_items_on_demand.2.1 String (List Nat) Nat two_page_fetch (fun items => items)
     [1, 2] (some "p2") none 2 0 rfl (by decide) (by decide),
   take_items_on_demand.2.2 String (List Nat) Nat paged_fetch (fun items => items) 2
     (by decide)
     (fun cursor page next h => by
       simp only [paged_fetch, Except.ok.injEq, Prod.mk.injEq] at h
       rw [← h.1]
       rfl)
     9 3 none⟩

/-- C10: a service response with an absent item list is treated by the
listers as an empty page: the item stream yields nothing for it and, when
a next page token is present, continues from that token instead of
terminating or failing; with no next token it simply ends. -/
theorem lister_absent_items_empty_page :
    (∀ (E α : Type) (doit : Option String → Except E (ListResponse α))
        (cursor : Option String) (t : String) (fuel : Nat),
      doit cursor = Except.ok ⟨none, some t⟩ →
      stream_items_from (lister_fetch doit) (fun items => items) (fuel + 1)
          (State.going cursor)
        = stream_items_from (lister_fetch doit) (fun items => items) fuel
            (State.going (some t)))
    ∧ (∀ (E α : Type) (doit : Option String → Except E (ListResponse α))
        (cursor : Option String) (fuel : Nat),
      doit cursor = Except.ok ⟨none, none⟩ →
      stream_items_from (lister_fetch doit) (fun items => items) (fuel + 1)
          (State.going cursor) = []) := by
  constructor
  · intro E α doit cursor t fuel h
    have hf : lister_fetch doit cursor = Except.ok ([], some t) := by
      simp [lister_fetch, h]
    simp [stream_items_from, stream_pages_from, hf, flatten_items]
  · intro E α doit cursor fuel h
    have hf : lister_fetch doit cursor = Except.ok ([], none) := by
      simp [lister_fetch, h]
    simp [stream_items_from, stream_pages_from, hf, flatten_items,
      stream_pages_from_done]

theorem lister_absent_items_empty_page_witness :
    stream_items_from (lister_fetch absent_items_doit) (fun items => items) 2
        (State.going none)
      = stream_items_from (lister_fetch absent_items_doit) (fun items => items) 1
          (State.going (some "p2"))
    ∧ stream_items_from (lister_fetch final_empty_doit) (fun items => items) 1
        (State.going none) = [] :=
  ⟨lister_absent_items_empty_page.1 String Nat absent_items_doit none "p2" 1 rfl,
   lister_absent_items_empty_page.2 String Nat final_empty_doit none 0 rfl⟩

end EventSync
